import Mathlib

/-!
Shallow embedding of the zone engine of yseto/dynamic-dns-go.

The Go program stores resource records in a `map[string][]string` keyed by a
reversed-label key (`record/record.go`), mutates it through the RFC2136 update
interpreter (`record/pad.go`), and answers queries, AXFR and CNAME chases in
`zone.HandleRequest`.  Records are canonical zone-file strings in Go; here a
record is a structure `RR`, its canonical string (`dns.RR.String()`) is
rendered by `RR.str`, and the table maps key strings to lists of records.
Helpers of the external miekg/dns library (`IsDomainName`, `SplitDomainName`,
`Type.String`, `Class.String`, `RR.String`) are modelled from their documented
behaviour; DNS escape sequences (`\.`) are not modelled, and record strings are
kept structured, so `dns.NewRR` on a stored record is the identity and its
parse-failure path (`MalformedRecord`) does not arise.
-/

namespace DDNS

/-- Record type codes of miekg/dns (uint16 values). -/
def TypeA : Nat := 1
def TypeNS : Nat := 2
def TypeCNAME : Nat := 5
def TypeSOA : Nat := 6
def TypeTXT : Nat := 16
def TypeAAAA : Nat := 28
def TypeAXFR : Nat := 252
def TypeANY : Nat := 255

/-- Class codes of miekg/dns. -/
def ClassINET : Nat := 1
def ClassNONE : Nat := 254
def ClassANY : Nat := 255

/-- DNS opcodes. -/
def OpcodeQuery : Nat := 0
def OpcodeUpdate : Nat := 5

/-- DNS response codes. -/
def RcodeSuccess : Nat := 0
def RcodeRefused : Nat := 5
def RcodeNotAuth : Nat := 8

/-- Errors produced by the engine: the `Invailid domain` error of
`GetKeyDomain`, the `Record not found` error of `getRecord`, and the two
conflict errors of `storeRecord`. -/
inductive Err where
  | invalidDomain
  | notFound
  | recordsIsExist
  | cnameRecordIsExist
deriving DecidableEq, Repr

/-- Decimal digit character, as produced by the `%d` verb of `fmt`. -/
def digitChar (d : Nat) : Char :=
  match d with
  | 0 => '0' | 1 => '1' | 2 => '2' | 3 => '3' | 4 => '4'
  | 5 => '5' | 6 => '6' | 7 => '7' | 8 => '8' | 9 => '9'
  | _ => '0'

/-- Decimal rendering of a natural number (fuel-structured model of `%d`). -/
def natToDigitsAux : Nat → Nat → List Char
  | 0, _ => []
  | fuel + 1, n => if n < 10 then [digitChar n] else natToDigitsAux fuel (n / 10) ++ [digitChar (n % 10)]

def natStr (n : Nat) : String := String.mk (natToDigitsAux (n + 1) n)

/-- Decimal rendering of an integer (`%d`). -/
def intStr (i : Int) : String :=
  if i < 0 then "-" ++ natStr i.natAbs else natStr i.natAbs

/-- Model of `dns.Type.String()` for the type codes the engine meets;
unknown codes render as `TYPE%d`.  Mnemonics never contain an underscore. -/
def typeStr (t : Nat) : String :=
  if t = 1 then "A" else if t = 2 then "NS" else if t = 5 then "CNAME"
  else if t = 6 then "SOA" else if t = 12 then "PTR" else if t = 15 then "MX"
  else if t = 16 then "TXT" else if t = 28 then "AAAA"
  else if t = 252 then "AXFR" else if t = 255 then "ANY"
  else "TYPE" ++ natStr t

/-- Model of `dns.Class.String()`. -/
def classStr (c : Nat) : String :=
  if c = 1 then "IN" else if c = 254 then "NONE" else if c = 255 then "ANY"
  else "CLASS" ++ natStr c

/-- A resource record: the structured content behind one canonical record
string (name, TTL, class, type, rdlength, presentation rdata). -/
structure RR where
  name : String
  ttl : Nat
  rcls : Nat
  rtype : Nat
  rdlen : Nat
  rdata : String
deriving DecidableEq, Repr

/-- Model of `dns.RR.String()`: the canonical presentation
`name TAB ttl TAB class TAB type TAB rdata`. -/
def RR.str (r : RR) : String :=
  r.name ++ "\t" ++ natStr r.ttl ++ "\t" ++ classStr r.rcls ++ "\t" ++ typeStr r.rtype ++ "\t" ++ r.rdata

/-- ASCII lower-casing of a string, the model of `strings.ToLower` on the
ASCII data DNS names are made of. -/
def lowerStr (s : String) : String := String.mk (s.data.map Char.toLower)

/-- Model of `strings.HasPrefix s pre`. -/
def strStarts (s pre : String) : Bool := pre.data.isPrefixOf s.data

/-- Model of `strings.HasSuffix s suf`. -/
def strEnds (s suf : String) : Bool := suf.data.isSuffixOf s.data

/-- Split a character list at every `'.'` (no escape handling). -/
def splitLabels : List Char → List (List Char)
  | [] => [[]]
  | c :: rest =>
    match splitLabels rest with
    | [] => if c = '.' then [[], []] else [[c]]
    | l :: ls => if c = '.' then [] :: l :: ls else (c :: l) :: ls

/-- Join labels back with `'.'`. -/
def joinLabels : List (List Char) → List Char
  | [] => []
  | [l] => l
  | l :: ls => l ++ '.' :: joinLabels ls

/-- Drop one trailing root dot, as `dns.SplitDomainName` does for FQDNs. -/
def stripDot (l : List Char) : List Char :=
  if l.getLast? = some '.' then l.dropLast else l

/-- Model of `dns.SplitDomainName`: `nil` for the empty string and for the
bare root, otherwise the dot-separated labels with the trailing dot dropped. -/
def domainLabels (s : String) : List (List Char) :=
  if s.data = [] then []
  else
    let l := stripDot s.data
    if l = [] then [] else splitLabels l

/-- Wire length of a name assembled from the given labels. -/
def wireLen (ls : List (List Char)) : Nat :=
  ls.foldl (fun a l => a + 1 + l.length) 1

/-- Model of `dns.IsDomainName`: non-empty, every label of length 1..63, and
the packed form within 255 octets; the bare root is valid.  Escape sequences
are not modelled. -/
def isDomainName (s : String) : Bool :=
  match s.data with
  | [] => false
  | _ =>
    if s.data = ['.'] then true
    else
      let ls := domainLabels s
      ls.all (fun l => decide (0 < l.length) && decide (l.length ≤ 63)) && decide (wireLen ls ≤ 255)

/-- The reversed-label lower-cased key of a (valid) domain name: labels are
reversed, joined with `"."` and lower-cased, as in `record.GetKeyDomain`. -/
def keyDomainStr (s : String) : String :=
  lowerStr (String.mk (joinLabels (domainLabels s).reverse))

/-- Model of `record.GetKeyDomain`: validates the name, then returns the
reversed-label lower-cased key. -/
def getKeyDomain (s : String) : Except Err String :=
  if isDomainName s then .ok (keyDomainStr s) else .error .invalidDomain

/-- The exact key of a (valid) name and type: `KeyDomain ++ "_" ++ type`. -/
def keyStrOf (s : String) (t : Nat) : String :=
  keyDomainStr s ++ "_" ++ typeStr t

/-- Model of `record.GetKey`. -/
def getKey (s : String) (t : Nat) : Except Err String :=
  if isDomainName s then .ok (keyStrOf s t) else .error .invalidDomain

/-- The record table: the `map[string][]string` of the zone, with record
strings kept structured.  A Go map has no duplicate keys; association-list
operations below always act on the first binding of a key. -/
abbrev Table := List (String × List RR)

/-- First-binding lookup, the model of `m[key]` presence. -/
def lookupT : Table → String → Option (List RR)
  | [], _ => none
  | (k', v) :: rest, k => if k' = k then some v else lookupT rest k

/-- Map-style assignment `m[key] = v`: replace the binding if present,
otherwise add it. -/
def tableSet : Table → String → List RR → Table
  | [], k, v => [(k, v)]
  | (k', v') :: rest, k, v => if k' = k then (k', v) :: rest else (k', v') :: tableSet rest k v

/-- Model of `pad.deleteRecords`: drop every key that textually starts with
the reversed-label key of `domain` (no label-boundary check). -/
def deleteRecords (T : Table) (domain : String) : Except Err Table :=
  match getKeyDomain domain with
  | .error e => .error e
  | .ok pre => .ok (T.filter (fun kv => !strStarts kv.1 pre))

/-- Model of `pad.deleteRecord`: type ANY deletes the whole subtree,
otherwise the RRset of the exact key is removed. -/
def deleteRecord (T : Table) (domain : String) (rtype : Nat) : Except Err Table :=
  if rtype = TypeANY then deleteRecords T domain
  else
    match getKey domain rtype with
    | .error e => .error e
    | .ok key => .ok (T.filter (fun kv => !(kv.1 = key : Bool)))

/-- Model of `pad.hasRecords`: does any key textually start with the
reversed-label key of `domain`? -/
def hasRecords (T : Table) (domain : String) : Except Err Bool :=
  match getKeyDomain domain with
  | .error e => .error e
  | .ok pre => .ok (T.any (fun kv => strStarts kv.1 pre))

/-- Tail of `pad.storeRecord` after the CNAME-existence guard: refuse when a
CNAME RRset key exists at the name, deduplicate by canonical string, else
append. -/
def storeRecordInner (T : Table) (rr : RR) : Except Err Table :=
  match getKey rr.name TypeCNAME with
  | .error _ => .ok T
  | .ok ckey =>
    if (lookupT T ckey).isSome then .error .cnameRecordIsExist
    else
      match getKey rr.name rr.rtype with
      | .error e => .error e
      | .ok key =>
        let cur := (lookupT T key).getD []
        if cur.any (fun v => v.str == rr.str) then .ok T
        else .ok (tableSet T key (cur ++ [rr]))

/-- Model of `pad.storeRecord`: a CNAME may only be added when no key of the
table starts with the name's reversed-label key; then `storeRecordInner`. -/
def storeRecord (T : Table) (rr : RR) : Except Err Table :=
  if rr.rtype = TypeCNAME then
    match hasRecords T rr.name with
    | .error e => .error e
    | .ok true => .error .recordsIsExist
    | .ok false => storeRecordInner T rr
  else storeRecordInner T rr

/-- The matching test of `pad.omitRecord`: the stored record with TTL forced
to 0 and class to NONE renders, lower-cased, to the same canonical string as
the request record. -/
def omitMatch (rr v : RR) : Bool :=
  lowerStr (RR.str { v with ttl := 0, rcls := ClassNONE }) == lowerStr rr.str

/-- Model of `pad.omitRecord` (RFC2136 2.5.4, delete one RR from an RRset):
silently no-op on a bad key or an absent RRset, otherwise keep exactly the
non-matching records. -/
def omitRecord (T : Table) (rr : RR) : Except Err Table :=
  match getKey rr.name rr.rtype with
  | .error _ => .ok T
  | .ok key =>
    match lookupT T key with
    | none => .ok T
    | some values => .ok (tableSet T key (values.filter (fun v => !omitMatch rr v)))

/-- Model of `pad.UpdateRecord`: classify one update RR by header fields.
Records whose owner name fails `dns.IsDomainName` are silently skipped. -/
def updateRecord (rr : RR) (T : Table) : Except Err Table :=
  if isDomainName rr.name then
    if rr.rcls = ClassANY then
      if rr.rdlen = 0 then deleteRecord T rr.name rr.rtype else .ok T
    else if rr.rcls = ClassNONE then
      if rr.ttl = 0 then omitRecord T rr else .ok T
    else if rr.rcls = ClassINET then storeRecord T rr
    else .ok T
  else .ok T

/-- Apply update RRs left to right, stopping at the first error; the table
already mutated by the earlier RRs is kept, as the Go pad shares the live
map. -/
def applyRRs (T : Table) : List RR → Table × Option Err
  | [] => (T, none)
  | rr :: rest =>
    match updateRecord rr T with
    | .error e => (T, some e)
    | .ok T2 => applyRRs T2 rest

/-- One question of a DNS message. -/
structure Question where
  name : String
  qtype : Nat
  qcls : Nat
deriving DecidableEq, Repr

/-- The update loop of `HandleRequest`: the whole authority section is
applied once per question, stopping at the first error. -/
def applyQuestions (T : Table) (qs : List Question) (rrs : List RR) : Table × Option Err :=
  match qs with
  | [] => (T, none)
  | _ :: qs2 =>
    match applyRRs T rrs with
    | (T2, some e) => (T2, some e)
    | (T2, none) => applyQuestions T2 qs2 rrs

/-- The collection phase of `zone.getRecord`: for type ANY, the records of
every key that textually starts with the reversed-label key of the question
name; for a specific type, the records of the exact key. -/
def collectKeys (T : Table) (pre : String) : List RR :=
  match T with
  | [] => []
  | kv :: rest => if strStarts kv.1 pre then kv.2 ++ collectKeys rest pre else collectKeys rest pre

def getRecordMatched (T : Table) (qName : String) (qQtype : Nat) : Except Err (List RR) :=
  if qQtype = TypeANY then
    match getKeyDomain qName with
    | .error e => .error e
    | .ok pre => .ok (collectKeys T pre)
  else
    match getKey qName qQtype with
    | .error e => .error e
    | .ok key => .ok ((lookupT T key).getD [])

/-- Model of `zone.getRecord`: the `Record not found` error is raised when
the collected records are empty, before the owner-name filter; records
surviving collection are then filtered by case-insensitive owner name. -/
def getRecord (T : Table) (qName : String) (qQtype : Nat) : Except Err (List RR) :=
  match getRecordMatched T qName qQtype with
  | .error e => .error e
  | .ok matched =>
    if matched.isEmpty then .error .notFound
    else .ok (matched.filter (fun rr => lowerStr rr.name == lowerStr qName))

/-- The per-zone state that `HandleRequest` reads besides the table. -/
structure Zone where
  zoneName : String
  nsName : String
  localAddr : String
  allowCIDR : String
  mtime : Int
deriving Repr

/-- Two's-complement truncation of `int32(mtime)`. -/
def int32of (i : Int) : Int := (i + 2 ^ 31) % 2 ^ 32 - 2 ^ 31

/-- Model of `zone.soaRR`: the synthesized SOA with the zone's mtime as
serial (canonical single-space rdata, as `dns.NewRR` re-renders it). -/
def soaRR (z : Zone) : RR :=
  ⟨z.zoneName, 3600, ClassINET, TypeSOA, 0,
    "localhost. nobody. " ++ intStr (int32of z.mtime) ++ " 28800 7200 2419200 1200"⟩

/-- Model of `zone.nsRR`, first component: the synthesized NS record. -/
def nsRR (z : Zone) : RR := ⟨z.zoneName, 3600, ClassINET, TypeNS, 0, z.nsName⟩

/-- Model of `zone.nsRR`, second component: the synthesized glue A record. -/
def aRR (z : Zone) : RR := ⟨z.nsName, 3600, ClassINET, TypeA, 0, z.localAddr⟩

/-- Every record of the table, in table order. -/
def allRecords : Table → List RR
  | [] => []
  | kv :: rest => kv.2 ++ allRecords rest

/-- Model of `zone.axfrRecord`: SOA, synthesized NS, synthesized A, every
stored record, SOA again. -/
def axfrRecord (z : Zone) (T : Table) : List RR :=
  soaRR z :: nsRR z :: aRR z :: (allRecords T ++ [soaRR z])

/-- The state of the goto-label CNAME chase: the name and type looked up at
the `labelcname` label. -/
abbrev ChaseState := String × Nat

/-- The body of the chase's `for` loop over the fetched records: skip records
that are neither CNAME nor the originally requested type, append the others,
and on the first CNAME whose target stays inside the zone jump back with the
target name and an ANY lookup (records after it are dropped by the goto). -/
def chaseBody (z : Zone) (origQtype : Nat) : List RR → List RR × Option ChaseState
  | [] => ([], none)
  | rr :: rest =>
    if rr.rtype = TypeCNAME ∨ rr.rtype = origQtype then
      if rr.rtype = TypeCNAME ∧ strEnds rr.rdata z.zoneName then
        ([rr], some (rr.rdata, TypeANY))
      else
        let p := chaseBody z origQtype rest
        (rr :: p.1, p.2)
    else chaseBody z origQtype rest

/-- The continue-state of one chase iteration: `some s2` when the iteration
jumps back to the label with state `s2`, `none` when the loop exits. -/
def chaseStepCont (z : Zone) (T : Table) (origQtype : Nat) (s : ChaseState) : Option ChaseState :=
  match getRecord T s.1 s.2 with
  | .error _ => none
  | .ok rrs => (chaseBody z origQtype rrs).2

/-- The chase loop itself, with explicit fuel standing for the number of
iterations the unbounded Go goto loop is allowed; `none` means the fuel ran
out, i.e. the Go loop would still be running. -/
def chaseLoop (z : Zone) (T : Table) (origQtype : Nat) : Nat → ChaseState → Option (List RR)
  | 0, _ => none
  | fuel + 1, s =>
    match getRecord T s.1 s.2 with
    | .error _ => some []
    | .ok rrs =>
      match chaseBody z origQtype rrs with
      | (ans, none) => some ans
      | (ans, some s2) =>
        match chaseLoop z T origQtype fuel s2 with
        | none => none
        | some more => some (ans ++ more)

/-- The chase loop of the query path never exits: every reachable state
steps to a further state, so every fuel is exhausted. -/
def chaseDiverges (z : Zone) (T : Table) (origQtype : Nat) (s : ChaseState) : Prop :=
  ∀ n, chaseLoop z T origQtype n s = none

/-- The question loop of `HandleRequest` for opcode Query, carrying the
accumulated answer and extra sections; `none` when a CNAME chase exhausts
its fuel.  An AXFR question with a bad TSIG returns early with rcode
NotAuth; a valid AXFR overwrites the answer section with the envelope. -/
def handleQuestions (fuel : Nat) (z : Zone) (T : Table) (invalidTsig : Bool) :
    List Question → List RR → List RR → Option (List RR × List RR × Nat)
  | [], ans, extra => some (ans, extra, RcodeSuccess)
  | q :: qs, ans, extra =>
    let qZone := lowerStr q.name == lowerStr z.zoneName
    if qZone && (q.qtype == TypeNS) then
      handleQuestions fuel z T invalidTsig qs (ans ++ [nsRR z]) (extra ++ [aRR z])
    else if qZone && (q.qtype == TypeSOA) then
      handleQuestions fuel z T invalidTsig qs (ans ++ [soaRR z]) extra
    else if qZone && (q.qtype == TypeAXFR) then
      if invalidTsig then some (ans, extra, RcodeNotAuth)
      else handleQuestions fuel z T invalidTsig qs (axfrRecord z T) extra
    else
      match getRecord T q.name q.qtype with
      | .ok rrs => handleQuestions fuel z T invalidTsig qs (ans ++ rrs) extra
      | .error _ =>
        if q.qtype = TypeCNAME then handleQuestions fuel z T invalidTsig qs ans extra
        else
          match chaseLoop z T q.qtype fuel (q.name, TypeCNAME) with
          | none => none
          | some got => handleQuestions fuel z T invalidTsig qs (ans ++ got) extra

/-- A decoded DNS message: opcode, questions, and the authority section
carrying update RRs. -/
structure Msg where
  opcode : Nat
  questions : List Question
  ns : List RR
deriving Repr

/-- Model of `zone.HandleRequest`: the reply rcode, answer section, extra
section, and the zone's in-memory table after the request.  The update path
checks the allow-CIDR (the remote-address test is the boolean input
`remoteAllowed`), then TSIG, then applies the batch on the pad that shares
the live map; on an update error the reply is Refused and the partially
mutated table remains; on success `writeDB` installs the result. -/
def handleRequest (fuel : Nat) (z : Zone) (T : Table) (m : Msg)
    (invalidTsig remoteAllowed : Bool) : Option (Nat × List RR × List RR × Table) :=
  if m.opcode = OpcodeQuery then
    match handleQuestions fuel z T invalidTsig m.questions [] [] with
    | none => none
    | some (ans, extra, rc) => some (rc, ans, extra, T)
  else if m.opcode = OpcodeUpdate then
    if z.allowCIDR ≠ "" && !remoteAllowed then some (RcodeRefused, [], [], T)
    else if invalidTsig then some (RcodeNotAuth, [], [], T)
    else
      match applyQuestions T m.questions m.ns with
      | (T2, some _) => some (RcodeRefused, [], [], T2)
      | (T2, none) => some (RcodeSuccess, [], [], T2)
  else some (RcodeSuccess, [], [], T)

/-- A name holds records of a given key when the key is bound to a
non-empty list. -/
def holdsT (T : Table) (k : String) : Bool :=
  match lookupT T k with
  | some vs => !vs.isEmpty
  | none => false

/-- The CNAME mutual-exclusivity invariant: no name holds both a CNAME
record and a record of another type. -/
def NoMix (T : Table) : Prop :=
  ∀ N t, isDomainName N = true → t ≠ TypeCNAME →
    holdsT T (keyStrOf N TypeCNAME) = true → holdsT T (keyStrOf N t) = false

/-- Tables reachable from a starting table through successful update
operations. -/
inductive Reach : Table → Table → Prop
  | refl (T : Table) : Reach T T
  | step {T1 T2 T3 : Table} {rr : RR} :
      Reach T1 T2 → updateRecord rr T2 = .ok T3 → Reach T1 T3

/-! Concrete fixtures: a zone `example.com.` and the tables of the examples
in the specification. -/

/-- The zone `example.com.` served by `ns.example.com.` at `127.0.0.1`,
with no allow-CIDR restriction. -/
def exZone : Zone := ⟨"example.com.", "ns.example.com.", "127.0.0.1", "", 0⟩

/-- The record `a.example.com. CNAME b.example.com.`. -/
def exCname : RR := ⟨"a.example.com.", 3600, ClassINET, TypeCNAME, 0, "b.example.com."⟩

/-- The record `b.example.com. A 10.0.0.9`. -/
def exA : RR := ⟨"b.example.com.", 3600, ClassINET, TypeA, 4, "10.0.0.9"⟩

/-- The two-record table of the CNAME-chase example. -/
def exChaseTable : Table := [("com.example.a_CNAME", [exCname]), ("com.example.b_A", [exA])]

/-- The record `b.example.com. CNAME a.example.com.`, closing a cycle with
`exCname`. -/
def exCnameBack : RR := ⟨"b.example.com.", 3600, ClassINET, TypeCNAME, 0, "a.example.com."⟩

/-- A table holding a two-element in-zone CNAME cycle. -/
def exCycleTable : Table := [("com.example.a_CNAME", [exCname]), ("com.example.b_CNAME", [exCnameBack])]

/-- The record `foo.example.com. A 10.0.0.1`. -/
def exFoo1 : RR := ⟨"foo.example.com.", 300, ClassINET, TypeA, 4, "10.0.0.1"⟩

/-- The record `foo.example.com. A 10.0.0.2`. -/
def exFoo2 : RR := ⟨"foo.example.com.", 300, ClassINET, TypeA, 4, "10.0.0.2"⟩

/-- The record `foo.example.com. CNAME bar.example.com.`; adding it after
the two A records violates the CNAME invariant. -/
def exFooCname : RR := ⟨"foo.example.com.", 300, ClassINET, TypeCNAME, 0, "bar.example.com."⟩

/-- A question for the zone itself (the zone-class carrier of an update). -/
def exZoneQ : Question := ⟨"example.com.", TypeSOA, ClassINET⟩

/-- The delete-one-RR request for `exFoo1`: class NONE, TTL 0. -/
def exDelFoo1 : RR := ⟨"foo.example.com.", 0, ClassNONE, TypeA, 4, "10.0.0.1"⟩

/-- A table with the two `foo.example.com.` A records in one RRset. -/
def exFooTable : Table := [("com.example.foo_A", [exFoo1, exFoo2])]

/-- An update RR whose owner name has an empty label and so fails
`dns.IsDomainName`. -/
def exBadName : RR := ⟨"bad..name.", 300, ClassINET, TypeA, 4, "10.0.0.1"⟩

/-- A table whose only record lives at `www.example.com.`: the reversed-label
key of `example.com.` is a textual prefix of its key. -/
def exWwwTable : Table := [("com.example.www_A", [⟨"www.example.com.", 300, ClassINET, TypeA, 4, "10.0.0.5"⟩])]

/-- A CNAME add request at the bare zone apex `example.com.`. -/
def exApexCname : RR := ⟨"example.com.", 300, ClassINET, TypeCNAME, 0, "x.example.org."⟩

/-- A table whose only record lives at `example2.com.`: its key textually
starts with the reversed-label key of `example.com.` although the names
differ. -/
def exSiblingTable : Table := [("com.example2_A", [⟨"example2.com.", 3600, ClassINET, TypeA, 4, "1.2.3.4"⟩])]

/-- A table already holding exactly the CNAME `exFooCname`. -/
def exDupCnameTable : Table := [("com.example.foo_CNAME", [exFooCname])]

/-- A table already holding exactly the A record `exFoo1`. -/
def exFoo1Table : Table := [("com.example.foo_A", [exFoo1])]

/-! Helper lemmas about strings, keys and the table operations. -/

theorem strData_append (a b : String) : (a ++ b).data = a.data ++ b.data := rfl

theorem strOfData_inj {a b : String} (h : a.data = b.data) : a = b := String.ext h

theorem strStarts_append_self (a b : String) : strStarts (a ++ b) a = true := by
  unfold strStarts
  rw [strData_append, List.isPrefixOf_iff_prefix]
  exact List.prefix_append _ _

theorem keyStrOf_data (N : String) (t : Nat) :
    (keyStrOf N t).data = (keyDomainStr N).data ++ '_' :: (typeStr t).data := by
  unfold keyStrOf
  rw [strData_append, strData_append, List.append_assoc]
  rfl

theorem keyStrOf_starts (N : String) (t : Nat) :
    strStarts (keyStrOf N t) (keyDomainStr N) = true := by
  unfold strStarts
  rw [keyStrOf_data, List.isPrefixOf_iff_prefix]
  exact ⟨'_' :: (typeStr t).data, rfl⟩

theorem sep_split : ∀ (a b : List Char) {u v : List Char}, '_' ∉ u → '_' ∉ v →
    a ++ '_' :: u = b ++ '_' :: v → a = b ∧ u = v := by
  intro a
  induction a with
  | nil =>
    intro b u v hu hv h
    cases b with
    | nil =>
      refine ⟨rfl, ?_⟩
      simpa using h
    | cons c b2 =>
      exfalso
      rw [List.nil_append, List.cons_append] at h
      obtain ⟨h1, h2⟩ := List.cons.inj h
      exact hu (h2 ▸ List.mem_append_right b2 (List.mem_cons_self _ _))
  | cons c a2 ih =>
    intro b u v hu hv h
    cases b with
    | nil =>
      exfalso
      rw [List.cons_append, List.nil_append] at h
      obtain ⟨h1, h2⟩ := List.cons.inj h
      exact hv (h2.symm ▸ List.mem_append_right a2 (List.mem_cons_self _ _))
    | cons d b2 =>
      rw [List.cons_append, List.cons_append] at h
      obtain ⟨h1, h2⟩ := List.cons.inj h
      obtain ⟨h3, h4⟩ := ih b2 hu hv h2
      exact ⟨by rw [h1, h3], h4⟩

theorem digitChar_ne_us (d : Nat) : digitChar d ≠ '_' := by
  unfold digitChar
  split <;> decide

theorem natToDigitsAux_no_us : ∀ (fuel n : Nat), '_' ∉ natToDigitsAux fuel n := by
  intro fuel
  induction fuel with
  | zero => intro n h; simp [natToDigitsAux] at h
  | succ f ih =>
    intro n h
    simp only [natToDigitsAux] at h
    split at h
    · simp at h
      exact digitChar_ne_us n h.symm
    · rw [List.mem_append] at h
      rcases h with h | h
      · exact ih _ h
      · simp at h
        exact digitChar_ne_us _ h.symm

theorem natStr_no_us (n : Nat) : '_' ∉ (natStr n).data := natToDigitsAux_no_us _ _

theorem typeStr_no_us (t : Nat) : '_' ∉ (typeStr t).data := by
  unfold typeStr
  repeat' split
  any_goals decide
  intro h
  rw [strData_append, List.mem_append] at h
  rcases h with h | h
  · revert h; decide
  · exact natStr_no_us _ h

theorem typeStr_eq_cname {t : Nat} (h : typeStr t = "CNAME") : t = TypeCNAME := by
  unfold typeStr at h
  split at h
  · exact absurd h (by decide)
  split at h
  · exact absurd h (by decide)
  split at h
  · rename_i h5; exact h5
  split at h
  · exact absurd h (by decide)
  split at h
  · exact absurd h (by decide)
  split at h
  · exact absurd h (by decide)
  split at h
  · exact absurd h (by decide)
  split at h
  · exact absurd h (by decide)
  split at h
  · exact absurd h (by decide)
  split at h
  · exact absurd h (by decide)
  exfalso
  have h2 := congrArg String.data h
  rw [strData_append] at h2
  have h3 : 'T' :: 'Y' :: 'P' :: 'E' :: (natStr t).data = ['C', 'N', 'A', 'M', 'E'] := h2
  simp at h3

theorem keyStrOf_parts {N M : String} {t u : Nat} (h : keyStrOf N t = keyStrOf M u) :
    keyDomainStr N = keyDomainStr M ∧ typeStr t = typeStr u := by
  have h2 := congrArg String.data h
  rw [keyStrOf_data, keyStrOf_data] at h2
  obtain ⟨h3, h4⟩ := sep_split _ _ (typeStr_no_us t) (typeStr_no_us u) h2
  exact ⟨strOfData_inj h3, strOfData_inj h4⟩

theorem getKeyDomain_valid {s : String} (h : isDomainName s = true) :
    getKeyDomain s = .ok (keyDomainStr s) := by
  simp [getKeyDomain, h]

theorem getKey_valid {s : String} (h : isDomainName s = true) (t : Nat) :
    getKey s t = .ok (keyStrOf s t) := by
  simp [getKey, h]

theorem getKey_ok_elim {s : String} {t : Nat} {k : String} (h : getKey s t = .ok k) :
    isDomainName s = true ∧ k = keyStrOf s t := by
  unfold getKey at h
  split at h
  · exact ⟨by assumption, (Except.ok.inj h).symm⟩
  · exact absurd h (by simp)

theorem lookupT_tableSet_self (T : Table) (k : String) (v : List RR) :
    lookupT (tableSet T k v) k = some v := by
  induction T with
  | nil => simp [tableSet, lookupT]
  | cons kv rest ih =>
    obtain ⟨k2, v2⟩ := kv
    by_cases h : k2 = k <;> simp [tableSet, lookupT, h, ih]

theorem lookupT_tableSet_ne (T : Table) (k : String) (v : List RR) {k2 : String}
    (h : k2 ≠ k) : lookupT (tableSet T k v) k2 = lookupT T k2 := by
  induction T with
  | nil => simp [tableSet, lookupT, Ne.symm h]
  | cons kv rest ih =>
    obtain ⟨k3, v3⟩ := kv
    by_cases h3 : k3 = k
    · subst h3
      have h5 : k3 ≠ k2 := Ne.symm h
      simp [tableSet, lookupT, h5]
    · by_cases h4 : k3 = k2
      · subst h4
        simp [tableSet, lookupT, h3]
      · simp [tableSet, lookupT, h3, h4, ih]

theorem lookupT_filter_key (p : String → Bool) (T : Table) (k : String) :
    lookupT (T.filter (fun kv => p kv.1)) k = if p k then lookupT T k else none := by
  induction T with
  | nil => simp [lookupT]
  | cons kv rest ih =>
    obtain ⟨k2, v2⟩ := kv
    by_cases h2 : p k2
    · by_cases h3 : k2 = k
      · subst h3
        simp [List.filter, h2, lookupT, ih]
      · simp [List.filter, h2, lookupT, h3, ih]
    · by_cases h3 : k2 = k
      · subst h3
        simp [List.filter, h2, lookupT, ih, h2]
      · simp [List.filter, h2, lookupT, h3, ih]

theorem lookupT_mem {T : Table} {k : String} {v : List RR} (h : lookupT T k = some v) :
    (k, v) ∈ T := by
  induction T with
  | nil => simp [lookupT] at h
  | cons kv rest ih =>
    obtain ⟨k2, v2⟩ := kv
    by_cases h2 : k2 = k
    · subst h2
      simp [lookupT] at h
      simp [h]
    · simp [lookupT, h2] at h
      exact List.mem_cons_of_mem _ (ih h)

theorem holdsT_eq_of_lookup {T T2 : Table} {k : String}
    (h : lookupT T2 k = lookupT T k) : holdsT T2 k = holdsT T k := by
  unfold holdsT
  rw [h]

theorem holdsT_elim {T : Table} {k : String} (h : holdsT T k = true) :
    ∃ vs, lookupT T k = some vs ∧ vs ≠ [] := by
  unfold holdsT at h
  split at h
  · rename_i vs hvs
    refine ⟨vs, hvs, ?_⟩
    simpa using h
  · exact absurd h (by simp)

theorem hasRecords_valid {s : String} (h : isDomainName s = true) (T : Table) :
    hasRecords T s = .ok (T.any (fun kv => strStarts kv.1 (keyDomainStr s))) := by
  unfold hasRecords
  rw [getKeyDomain_valid h]

theorem storeRecordInner_ok_cases {T : Table} {rr : RR} {T2 : Table}
    (h : storeRecordInner T rr = .ok T2) :
    T2 = T ∨
      (isDomainName rr.name = true ∧
        lookupT T (keyStrOf rr.name TypeCNAME) = none ∧
        T2 = tableSet T (keyStrOf rr.name rr.rtype)
              ((lookupT T (keyStrOf rr.name rr.rtype)).getD [] ++ [rr])) := by
  unfold storeRecordInner at h
  cases hv : isDomainName rr.name
  · rw [show getKey rr.name TypeCNAME = .error .invalidDomain by simp [getKey, hv]] at h
    exact Or.inl (Except.ok.inj h).symm
  · rw [getKey_valid hv TypeCNAME, getKey_valid hv rr.rtype] at h
    cases hl : lookupT T (keyStrOf rr.name TypeCNAME)
    · simp only [hl, Option.isSome_none, Bool.false_eq_true, if_false] at h
      split at h
      · exact Or.inl (Except.ok.inj h).symm
      · exact Or.inr ⟨rfl, rfl, (Except.ok.inj h).symm⟩
    · simp [hl] at h

theorem storeRecord_ok_cases {T : Table} {rr : RR} {T2 : Table}
    (h : storeRecord T rr = .ok T2) :
    T2 = T ∨
      (isDomainName rr.name = true ∧
        lookupT T (keyStrOf rr.name TypeCNAME) = none ∧
        T2 = tableSet T (keyStrOf rr.name rr.rtype)
              ((lookupT T (keyStrOf rr.name rr.rtype)).getD [] ++ [rr]) ∧
        (rr.rtype = TypeCNAME →
          T.any (fun kv => strStarts kv.1 (keyDomainStr rr.name)) = false)) := by
  unfold storeRecord at h
  split at h
  · rename_i hcn
    cases hv : isDomainName rr.name
    · rw [show hasRecords T rr.name = .error .invalidDomain by simp [hasRecords, getKeyDomain, hv]] at h
      exact absurd h (by simp)
    · rw [hasRecords_valid hv] at h
      cases hany : T.any (fun kv => strStarts kv.1 (keyDomainStr rr.name))
      · rw [hany] at h
        rcases storeRecordInner_ok_cases h with h2 | ⟨h2, h3, h4⟩
        · exact Or.inl h2
        · exact Or.inr ⟨rfl, h3, h4, fun _ => rfl⟩
      · rw [hany] at h
        exact absurd h (by simp)
  · rename_i hcn
    rcases storeRecordInner_ok_cases h with h2 | ⟨h2, h3, h4⟩
    · exact Or.inl h2
    · exact Or.inr ⟨h2, h3, h4, fun hE => absurd hE hcn⟩

theorem omitRecord_ok_cases {T : Table} {rr : RR} {T2 : Table}
    (h : omitRecord T rr = .ok T2) :
    T2 = T ∨ ∃ vs, getKey rr.name rr.rtype = .ok (keyStrOf rr.name rr.rtype) ∧
      lookupT T (keyStrOf rr.name rr.rtype) = some vs ∧
      T2 = tableSet T (keyStrOf rr.name rr.rtype) (vs.filter (fun v => !omitMatch rr v)) := by
  unfold omitRecord at h
  cases hk : getKey rr.name rr.rtype
  · rw [hk] at h
    exact Or.inl (Except.ok.inj h).symm
  · rename_i key
    obtain ⟨hval, rfl⟩ := getKey_ok_elim hk
    simp only [hk] at h
    cases hl : lookupT T (keyStrOf rr.name rr.rtype)
    · simp only [hl] at h
      exact Or.inl (Except.ok.inj h).symm
    · rename_i vs
      simp only [hl] at h
      exact Or.inr ⟨vs, rfl, rfl, (Except.ok.inj h).symm⟩

theorem noMix_pointwise {T T2 : Table}
    (h : ∀ k, holdsT T2 k = true → holdsT T k = true) (hm : NoMix T) : NoMix T2 := by
  intro N t hN ht hc
  have h2 := hm N t hN ht (h _ hc)
  cases hE : holdsT T2 (keyStrOf N t)
  · rfl
  · exact absurd (h _ hE) (by simp [h2])

theorem holdsT_filter_imp (p : String → Bool) (T : Table) (k : String)
    (h : holdsT (T.filter (fun kv => p kv.1)) k = true) : holdsT T k = true := by
  unfold holdsT at h ⊢
  rw [lookupT_filter_key] at h
  by_cases hp : p k
  · rw [if_pos hp] at h
    exact h
  · rw [if_neg hp] at h
    simp at h

theorem noMix_store {T : Table} {rr : RR} {T2 : Table}
    (hm : NoMix T) (h : storeRecord T rr = .ok T2) : NoMix T2 := by
  rcases storeRecord_ok_cases h with rfl | ⟨hval, hcnone, hT2, hcn⟩
  · exact hm
  · subst hT2
    intro N t hN ht hc
    by_cases hcY : keyStrOf N TypeCNAME = keyStrOf rr.name rr.rtype
    · obtain ⟨hd, hts⟩ := keyStrOf_parts hcY
      have hrt : rr.rtype = TypeCNAME := typeStr_eq_cname hts.symm
      have hno := hcn hrt
      have hneq : keyStrOf N t ≠ keyStrOf rr.name rr.rtype := by
        intro hE
        obtain ⟨hd2, hts2⟩ := keyStrOf_parts hE
        refine ht (typeStr_eq_cname ?_)
        rw [hts2, hrt]
        decide
      rw [holdsT_eq_of_lookup (lookupT_tableSet_ne T _ _ hneq)]
      cases hE : holdsT T (keyStrOf N t)
      · rfl
      · exfalso
        obtain ⟨vs, hvs, _⟩ := holdsT_elim hE
        have hmem := lookupT_mem hvs
        have hpre : strStarts (keyStrOf N t) (keyDomainStr rr.name) = true := by
          rw [← hd]
          exact keyStrOf_starts N t
        rw [List.any_eq_false] at hno
        exact hno _ hmem (by simpa using hpre)
    · have hcT : holdsT T (keyStrOf N TypeCNAME) = true := by
        rw [← holdsT_eq_of_lookup (lookupT_tableSet_ne T _ _ hcY)]
        exact hc
      by_cases hkY : keyStrOf N t = keyStrOf rr.name rr.rtype
      · exfalso
        obtain ⟨hd, _⟩ := keyStrOf_parts hkY
        have hEq : keyStrOf N TypeCNAME = keyStrOf rr.name TypeCNAME := by
          unfold keyStrOf
          rw [hd]
        obtain ⟨vs, hvs, _⟩ := holdsT_elim hcT
        rw [hEq, hcnone] at hvs
        exact Option.noConfusion hvs
      · rw [holdsT_eq_of_lookup (lookupT_tableSet_ne T _ _ hkY)]
        exact hm N t hN ht hcT

theorem noMix_omit {T : Table} {rr : RR} {T2 : Table}
    (hm : NoMix T) (h : omitRecord T rr = .ok T2) : NoMix T2 := by
  rcases omitRecord_ok_cases h with rfl | ⟨vs, hk, hl, rfl⟩
  · exact hm
  · refine noMix_pointwise (fun k hk2 => ?_) hm
    by_cases hE : k = keyStrOf rr.name rr.rtype
    · subst hE
      unfold holdsT at hk2 ⊢
      rw [lookupT_tableSet_self] at hk2
      rw [hl]
      simp only [Bool.not_eq_true'] at hk2 ⊢
      cases vs with
      | nil => simp at hk2
      | cons a as => simp
    · unfold holdsT at hk2 ⊢
      rw [lookupT_tableSet_ne _ _ _ hE] at hk2
      exact hk2

theorem noMix_update {T : Table} {rr : RR} {T2 : Table}
    (hm : NoMix T) (h : updateRecord rr T = .ok T2) : NoMix T2 := by
  unfold updateRecord at h
  split at h
  · split at h
    · split at h
      · unfold deleteRecord at h
        split at h
        · unfold deleteRecords at h
          cases hk : getKeyDomain rr.name
          · rw [hk] at h
            exact absurd h (by simp)
          · rename_i pre
            rw [hk] at h
            obtain rfl : T2 = _ := (Except.ok.inj h).symm
            exact noMix_pointwise (fun k => holdsT_filter_imp (fun s => !strStarts s pre) T k) hm
        · cases hk : getKey rr.name rr.rtype
          · rw [hk] at h
            exact absurd h (by simp)
          · rename_i key
            rw [hk] at h
            obtain rfl : T2 = _ := (Except.ok.inj h).symm
            exact noMix_pointwise (fun k => holdsT_filter_imp (fun s => !(s = key : Bool)) T k) hm
      · obtain rfl : T2 = T := (Except.ok.inj h).symm
        exact hm
    · split at h
      · split at h
        · exact noMix_omit hm h
        · obtain rfl : T2 = T := (Except.ok.inj h).symm
          exact hm
      · split at h
        · exact noMix_store hm h
        · obtain rfl : T2 = T := (Except.ok.inj h).symm
          exact hm
  · obtain rfl : T2 = T := (Except.ok.inj h).symm
    exact hm

theorem noMix_reach {T T2 : Table} (hm : NoMix T) (h : Reach T T2) : NoMix T2 := by
  induction h with
  | refl => exact hm
  | step h1 h2 ih => exact noMix_update ih h2

theorem storeRecordInner_error_elim {T : Table} {rr : RR} {e : Err}
    (h : storeRecordInner T rr = .error e) : e = .cnameRecordIsExist := by
  unfold storeRecordInner at h
  cases hk : getKey rr.name TypeCNAME
  · rw [hk] at h
    exact absurd h (by simp)
  · obtain ⟨hval, rfl⟩ := getKey_ok_elim hk
    simp only [hk] at h
    split at h
    · exact (Except.error.inj h).symm
    · simp only [getKey_valid hval rr.rtype] at h
      split at h <;> simp at h

theorem getRecordMatched_valid {qName : String} (h : isDomainName qName = true)
    (T : Table) (qQtype : Nat) : ∃ ms, getRecordMatched T qName qQtype = .ok ms := by
  unfold getRecordMatched
  split
  · rw [getKeyDomain_valid h]
    exact ⟨_, rfl⟩
  · rw [getKey_valid h]
    exact ⟨_, rfl⟩

theorem chaseLoop_none_of_cycle {z : Zone} {T : Table} {o : Nat} (S : ChaseState → Prop)
    (h : ∀ s, S s → ∃ s2, chaseStepCont z T o s = some s2 ∧ S s2) :
    ∀ (n : Nat) (s : ChaseState), S s → chaseLoop z T o n s = none := by
  intro n
  induction n with
  | zero => intro s hs; rfl
  | succ m ih =>
    intro s hs
    obtain ⟨s2, hstep, hS2⟩ := h s hs
    unfold chaseStepCont at hstep
    cases hg : getRecord T s.1 s.2
    · rw [hg] at hstep
      exact absurd hstep (by simp)
    · rename_i rrs
      simp only [hg] at hstep
      cases hb : chaseBody z o rrs with
      | mk ans cont =>
        rw [hb] at hstep
        cases cont
        · exact absurd hstep (by simp)
        · rename_i s3
          have hS3 : S s3 := by
            rw [Option.some.inj hstep]
            exact hS2
          simp only [chaseLoop, hg, hb, ih s3 hS3]

/-! The claims. -/

/-- C1: the claim states batch atomicity — after a failed batch the in-memory
table equals the pre-batch table.  The code violates it: `NewPad` wraps the
live map, so on the empty table a batch of two adds followed by a
CNAME-conflicting third add replies Refused but leaves the two added records
in the table, which therefore differs from the pre-batch (empty) table. -/
theorem update_batch_keeps_partial :
    handleRequest 1 exZone [] ⟨OpcodeUpdate, [exZoneQ], [exFoo1, exFoo2, exFooCname]⟩ false true
      = some (RcodeRefused, [], [], [("com.example.foo_A", [exFoo1, exFoo2])])
    ∧ ([("com.example.foo_A", [exFoo1, exFoo2])] : Table) ≠ ([] : Table) :=
  ⟨rfl, by decide⟩

/-- C3: the claim states the CNAME chase always performs finitely many hops.
On a table whose two CNAME records form an in-zone cycle, the chase states
`(a.example.com., ANY)` and `(b.example.com., ANY)` step to each other
forever, so the goto loop of the source never exits: every fuel bound is
exhausted. -/
theorem chase_cycle_diverges :
    chaseDiverges exZone exCycleTable TypeA ("a.example.com.", TypeCNAME)
    ∧ chaseStepCont exZone exCycleTable TypeA ("a.example.com.", TypeANY)
        = some ("b.example.com.", TypeANY)
    ∧ chaseStepCont exZone exCycleTable TypeA ("b.example.com.", TypeANY)
        = some ("a.example.com.", TypeANY) := by
  refine ⟨?_, rfl, rfl⟩
  intro n
  refine chaseLoop_none_of_cycle
    (fun s => s = ("a.example.com.", TypeCNAME) ∨ s = ("a.example.com.", TypeANY)
      ∨ s = ("b.example.com.", TypeANY)) ?_ n _ (Or.inl rfl)
  rintro s (rfl | rfl | rfl)
  · exact ⟨("b.example.com.", TypeANY), rfl, Or.inr (Or.inr rfl)⟩
  · exact ⟨("b.example.com.", TypeANY), rfl, Or.inr (Or.inr rfl)⟩
  · exact ⟨("a.example.com.", TypeANY), rfl, Or.inr (Or.inl rfl)⟩

/-- C9: delete-one-RR semantics of `omitRecord`.  For a class-NONE, TTL-0
update RR with a well-formed owner name, the operation succeeds, touches only
the RRset at the exact key of (name, type), keeps exactly the stored records
that do not match the request's lower-cased canonical string after forcing
their TTL to 0 and class to NONE, and is a no-op when the RRset is absent. -/
theorem omit_one_rr :
    ∀ (T : Table) (rr : RR), rr.rcls = ClassNONE → rr.ttl = 0 →
      isDomainName rr.name = true →
      ∃ T2, omitRecord T rr = .ok T2
        ∧ (∀ k, k ≠ keyStrOf rr.name rr.rtype → lookupT T2 k = lookupT T k)
        ∧ lookupT T2 (keyStrOf rr.name rr.rtype)
            = (lookupT T (keyStrOf rr.name rr.rtype)).map (List.filter (fun v => !omitMatch rr v))
        ∧ (lookupT T (keyStrOf rr.name rr.rtype) = none → T2 = T) := by
  intro T rr h1 h2 hval
  unfold omitRecord
  simp only [getKey_valid hval]
  cases hl : lookupT T (keyStrOf rr.name rr.rtype)
  · exact ⟨T, rfl, fun k hk => rfl, by rw [hl]; rfl, fun _ => rfl⟩
  · rename_i vs
    refine ⟨tableSet T (keyStrOf rr.name rr.rtype) (vs.filter (fun v => !omitMatch rr v)),
      rfl, fun k hk => lookupT_tableSet_ne T _ _ hk, ?_, ?_⟩
    · rw [lookupT_tableSet_self]
      rfl
    · intro hE
      exact absurd hE (by simp)

/-- C9 witness: deleting `foo.example.com. A 10.0.0.1` from the RRset holding
the two A records keeps the sibling `10.0.0.2` record. -/
theorem omit_one_rr_witness :
    ∃ T2, omitRecord exFooTable exDelFoo1 = .ok T2
      ∧ (∀ k, k ≠ keyStrOf exDelFoo1.name exDelFoo1.rtype → lookupT T2 k = lookupT exFooTable k)
      ∧ lookupT T2 (keyStrOf exDelFoo1.name exDelFoo1.rtype)
          = (lookupT exFooTable (keyStrOf exDelFoo1.name exDelFoo1.rtype)).map
              (List.filter (fun v => !omitMatch exDelFoo1 v))
      ∧ (lookupT exFooTable (keyStrOf exDelFoo1.name exDelFoo1.rtype) = none → T2 = exFooTable) :=
  omit_one_rr exFooTable exDelFoo1 rfl rfl (by decide)

/-- C10: frame property — a successful class-IN add changes at most the
binding at the exact key of (name, type) of the added RR, and a class-NONE,
TTL-0 delete-one changes at most the binding at its exact key; every other
key keeps its record list. -/
theorem frame_single_ops :
    (∀ (T : Table) (rr : RR) (T2 : Table), rr.rcls = ClassINET →
      storeRecord T rr = .ok T2 →
      ∀ k, getKey rr.name rr.rtype ≠ .ok k → lookupT T2 k = lookupT T k)
    ∧ (∀ (T : Table) (rr : RR) (T2 : Table), rr.rcls = ClassNONE → rr.ttl = 0 →
        omitRecord T rr = .ok T2 →
        ∀ k, getKey rr.name rr.rtype ≠ .ok k → lookupT T2 k = lookupT T k) := by
  constructor
  · intro T rr T2 hcls h k hk
    rcases storeRecord_ok_cases h with rfl | ⟨hval, h2, rfl, h3⟩
    · rfl
    · have hne : k ≠ keyStrOf rr.name rr.rtype := by
        intro hE
        exact hk (hE ▸ getKey_valid hval rr.rtype)
      exact lookupT_tableSet_ne T _ _ hne
  · intro T rr T2 h1 h2 h k hk
    rcases omitRecord_ok_cases h with rfl | ⟨vs, hgk, hl, rfl⟩
    · rfl
    · have hne : k ≠ keyStrOf rr.name rr.rtype := by
        intro hE
        exact hk (hE ▸ hgk)
      exact lookupT_tableSet_ne T _ _ hne

/-- C10 witness: adding `exFoo1` to the empty table leaves the unrelated key
`com.example.foo_TXT` unbound on both sides. -/
theorem frame_single_ops_witness :
    lookupT [("com.example.foo_A", [exFoo1])] "com.example.foo_TXT"
      = lookupT ([] : Table) "com.example.foo_TXT" :=
  frame_single_ops.1 [] exFoo1 [("com.example.foo_A", [exFoo1])] rfl rfl
    "com.example.foo_TXT" (fun hE => absurd (Except.ok.inj hE) (by decide))

/-- C5 counterexample: the claim states a batch containing an RR with a
malformed owner name surfaces `InvalidDomain`.  The code instead skips the
RR inside `UpdateRecord` (the whole body is guarded by `dns.IsDomainName`)
and the batch reports success with the table untouched. -/
theorem update_invalid_name_silent_cx :
    handleRequest 1 exZone [] ⟨OpcodeUpdate, [exZoneQ], [exBadName]⟩ false true
      = some (RcodeSuccess, [], [], [])
    ∧ isDomainName exBadName.name = false :=
  ⟨rfl, by decide⟩

/-- C5 (amended): an update RR whose owner name fails `dns.IsDomainName` is
silently skipped — `UpdateRecord` succeeds leaving the table unchanged, and a
single-RR batch made of it replies NoError with no state change; no
`InvalidDomain` error reaches the caller. -/
theorem update_invalid_name_silent :
    (∀ (rr : RR) (T : Table), isDomainName rr.name = false → updateRecord rr T = .ok T)
    ∧ (∀ (fuel : Nat) (z : Zone) (T : Table) (q : Question) (rr : RR) (b : Bool),
        z.allowCIDR = "" → isDomainName rr.name = false →
        handleRequest fuel z T ⟨OpcodeUpdate, [q], [rr]⟩ false b
          = some (RcodeSuccess, [], [], T)) := by
  have h1 : ∀ (rr : RR) (T : Table), isDomainName rr.name = false → updateRecord rr T = .ok T := by
    intro rr T h
    simp [updateRecord, h]
  refine ⟨h1, ?_⟩
  intro fuel z T q rr b hcidr hbad
  simp [handleRequest, OpcodeUpdate, OpcodeQuery, hcidr, applyQuestions, applyRRs,
    h1 rr T hbad, RcodeSuccess]

/-- C5 witness: the bad-name RR leaves a non-empty table unchanged and the
update replies NoError. -/
theorem update_invalid_name_silent_witness :
    handleRequest 1 exZone exFooTable ⟨OpcodeUpdate, [exZoneQ], [exBadName]⟩ false true
      = some (RcodeSuccess, [], [], exFooTable) :=
  update_invalid_name_silent.2 1 exZone exFooTable exZoneQ exBadName true rfl (by decide)

/-- C6 counterexample: the claim states an ANY lookup whose prefix-matched
keys only hold records with other owner names yields NotFound.  On the table
whose single record lives at `example2.com.` — whose key starts with the
reversed-label key of `example.com.` — the lookup for `example.com.` instead
succeeds with an empty answer, which is not the NotFound error. -/
theorem getRecord_notfound_prefilter_cx :
    getRecord exSiblingTable "example.com." TypeANY = .ok []
    ∧ (Except.ok ([] : List RR) : Except Err (List RR)) ≠ .error Err.notFound :=
  ⟨rfl, by simp⟩

/-- C6 (amended): for a well-formed question name, the lookup signals
NotFound exactly when the collected records are empty BEFORE the owner-name
filter; when the collection is non-empty the lookup succeeds with the
name-filtered records — possibly the successful empty answer. -/
theorem getRecord_notfound_prefilter :
    (∀ (T : Table) (qName : String) (qQtype : Nat), isDomainName qName = true →
      ((getRecord T qName qQtype = .error .notFound)
        ↔ getRecordMatched T qName qQtype = .ok []))
    ∧ (∀ (T : Table) (qName : String) (qQtype : Nat) (ms : List RR),
        getRecordMatched T qName qQtype = .ok ms → ms ≠ [] →
        getRecord T qName qQtype
          = .ok (ms.filter (fun rr => lowerStr rr.name == lowerStr qName))) := by
  constructor
  · intro T qName qQtype hval
    obtain ⟨ms, hms⟩ := getRecordMatched_valid hval T qQtype
    unfold getRecord
    simp only [hms]
    constructor
    · intro h
      by_cases he : ms.isEmpty = true
      · rw [List.isEmpty_iff] at he
        rw [he]
      · rw [if_neg he] at h
        exact absurd h (by simp)
    · intro h
      have hE : ms = [] := Except.ok.inj h
      subst hE
      simp
  · intro T qName qQtype ms hms hne
    unfold getRecord
    simp only [hms]
    have hE : ms.isEmpty = false := by
      cases ms
      · exact absurd rfl hne
      · rfl
    rw [hE]
    simp

/-- C6 witness: on the empty table the direct lookup for `example.com.` type
A signals NotFound exactly because the collection is empty. -/
theorem getRecord_notfound_prefilter_witness :
    (getRecord ([] : Table) "example.com." TypeA = .error .notFound)
      ↔ getRecordMatched ([] : Table) "example.com." TypeA = .ok [] :=
  getRecord_notfound_prefilter.1 [] "example.com." TypeA (by decide)

/-- C4 counterexample: the claim states a duplicate add is a silent no-op
for any type including CNAME.  Re-adding the CNAME already stored at
`foo.example.com.` fails with the conflict error instead, because the
CNAME-existence guard runs before deduplication. -/
theorem store_dedup_cx :
    storeRecord exDupCnameTable exFooCname = .error .recordsIsExist
    ∧ (Except.error Err.recordsIsExist : Except Err Table) ≠ .ok exDupCnameTable :=
  ⟨rfl, by simp⟩

/-- C4 (amended): adding a non-CNAME RR whose canonical string already sits
in the RRset at its exact key is a silent no-op provided no CNAME RRset key
exists at the name; re-adding an already-stored CNAME instead fails with
`ConflictExists`, since the mutual-exclusivity guard fires before the
duplicate check. -/
theorem store_dedup :
    (∀ (rr : RR) (T : Table), isDomainName rr.name = true → rr.rtype ≠ TypeCNAME →
      lookupT T (keyStrOf rr.name TypeCNAME) = none →
      ((lookupT T (keyStrOf rr.name rr.rtype)).getD []).any (fun v => v.str == rr.str) = true →
      storeRecord T rr = .ok T)
    ∧ (∀ (rr : RR) (T : Table), rr.rtype = TypeCNAME → isDomainName rr.name = true →
        ((lookupT T (keyStrOf rr.name TypeCNAME)).getD []).any (fun v => v.str == rr.str) = true →
        storeRecord T rr = .error .recordsIsExist) := by
  constructor
  · intro rr T hval hncn hcnone hdup
    unfold storeRecord
    rw [if_neg hncn]
    unfold storeRecordInner
    simp only [getKey_valid hval, hcnone, Option.isSome_none, Bool.false_eq_true, if_false]
    rw [hdup]
    rfl
  · intro rr T hcn hval hdup
    unfold storeRecord
    rw [if_pos hcn, hasRecords_valid hval]
    have hsome : ∃ vs, lookupT T (keyStrOf rr.name TypeCNAME) = some vs := by
      cases hl : lookupT T (keyStrOf rr.name TypeCNAME)
      · rw [hl] at hdup
        exact absurd hdup (by simp)
      · exact ⟨_, rfl⟩
    obtain ⟨vs, hvs⟩ := hsome
    have hany : T.any (fun kv => strStarts kv.1 (keyDomainStr rr.name)) = true := by
      rw [List.any_eq_true]
      exact ⟨_, lookupT_mem hvs, by simpa using keyStrOf_starts rr.name TypeCNAME⟩
    rw [hany]

/-- C4 witness: re-adding `exFoo1` (a non-CNAME duplicate) to the table that
already holds it succeeds and leaves the table unchanged. -/
theorem store_dedup_witness :
    storeRecord exFoo1Table exFoo1 = .ok exFoo1Table :=
  store_dedup.1 exFoo1 exFoo1Table (by decide) (by decide) rfl rfl

/-- C2 counterexample: the claim states a CNAME add fails exactly when some
record already exists AT that name.  Adding a CNAME at `example.com.` to the
table whose only record lives at `www.example.com.` fails with the conflict
error although no stored record's owner name equals `example.com.` — the
guard prefix-matches keys without a label boundary, so records at subdomains
also block the add. -/
theorem store_exclusivity_cx :
    storeRecord exWwwTable exApexCname = .error .recordsIsExist
    ∧ (allRecords exWwwTable).all
        (fun r => !(lowerStr r.name == lowerStr exApexCname.name)) = true :=
  ⟨rfl, by decide⟩

/-- C2 (amended): for a well-formed name, (i) a CNAME add fails with the
conflict error exactly when some key of the table textually starts with the
name's reversed-label key (records at the name, at subdomains, prefix-
colliding siblings, and even empty RRset bindings all block it); (ii) a
non-CNAME add fails with the conflict error exactly when a binding exists at
the CNAME exact key of the name (even an empty one); (iii) a failed class-IN
add leaves the batch's table unchanged while surfacing the error; and (iv)
no table reachable by update operations from a table satisfying mutual
exclusivity ever holds both a CNAME and another record type at one name. -/
theorem store_exclusivity :
    (∀ (rr : RR) (T : Table), isDomainName rr.name = true → rr.rtype = TypeCNAME →
      ((storeRecord T rr = .error .recordsIsExist)
        ↔ T.any (fun kv => strStarts kv.1 (keyDomainStr rr.name)) = true))
    ∧ (∀ (rr : RR) (T : Table), isDomainName rr.name = true → rr.rtype ≠ TypeCNAME →
      ((storeRecord T rr = .error .cnameRecordIsExist)
        ↔ (lookupT T (keyStrOf rr.name TypeCNAME)).isSome = true))
    ∧ (∀ (rr : RR) (T : Table) (e : Err), rr.rcls = ClassINET →
        isDomainName rr.name = true →
        storeRecord T rr = .error e → applyRRs T [rr] = (T, some e))
    ∧ (∀ (T T2 : Table), NoMix T → Reach T T2 → NoMix T2) := by
  refine ⟨?_, ?_, ?_, fun T T2 => noMix_reach⟩
  · intro rr T hval hcn
    unfold storeRecord
    rw [if_pos hcn, hasRecords_valid hval]
    cases hany : T.any (fun kv => strStarts kv.1 (keyDomainStr rr.name))
    · constructor
      · intro h
        exact absurd (storeRecordInner_error_elim h) (by decide)
      · intro h
        exact absurd h (by simp)
    · constructor
      · intro h
        rfl
      · intro h
        rfl
  · intro rr T hval hncn
    unfold storeRecord
    rw [if_neg hncn]
    unfold storeRecordInner
    simp only [getKey_valid hval]
    cases hs : lookupT T (keyStrOf rr.name TypeCNAME)
    · simp only [Option.isSome_none, Bool.false_eq_true, if_false]
      constructor
      · intro h
        split at h <;> exact absurd h (by simp)
      · intro h
        exact absurd h (by simp)
    · simp
  · intro rr T e hcls hval h
    have h2 : updateRecord rr T = .error e := by
      simp [updateRecord, hval, hcls, ClassANY, ClassNONE, ClassINET, h]
    simp [applyRRs, h2]

/-- C2 witness: on the `www.example.com.` table, the CNAME add at the apex
fails exactly because a key prefix-matches the apex's reversed-label key. -/
theorem store_exclusivity_witness :
    (storeRecord exWwwTable exApexCname = .error .recordsIsExist)
      ↔ exWwwTable.any (fun kv => strStarts kv.1 (keyDomainStr exApexCname.name)) = true :=
  store_exclusivity.1 exApexCname exWwwTable (by decide) rfl

/-- C7: on the table holding exactly `a.example.com. CNAME b.example.com.`
and `b.example.com. A 10.0.0.9` inside zone `example.com.`, the direct type-A
lookup for `a.example.com.` signals NotFound, the chase (with any fuel of at
least two hops) returns the CNAME record first and the A record second, and
the full query handler answers with exactly those two records in that
order. -/
theorem chase_two_records (n : Nat) :
    getRecord exChaseTable "a.example.com." TypeA = .error .notFound
    ∧ chaseLoop exZone exChaseTable TypeA (n + 2) ("a.example.com.", TypeCNAME)
        = some [exCname, exA]
    ∧ handleRequest 8 exZone exChaseTable
        ⟨OpcodeQuery, [⟨"a.example.com.", TypeA, ClassINET⟩], []⟩ true true
        = some (RcodeSuccess, [exCname, exA], [], exChaseTable) := by
  refine ⟨rfl, ?_, rfl⟩
  have e1 : getRecord exChaseTable "a.example.com." TypeCNAME = .ok [exCname] := rfl
  have e2 : chaseBody exZone TypeA [exCname] = ([exCname], some ("b.example.com.", TypeANY)) := rfl
  have e3 : getRecord exChaseTable "b.example.com." TypeANY = .ok [exA] := rfl
  have e4 : chaseBody exZone TypeA [exA] = ([exA], none) := rfl
  show chaseLoop exZone exChaseTable TypeA (n + 1 + 1) ("a.example.com.", TypeCNAME) = _
  simp only [chaseLoop, e1, e2, e3, e4]
  rfl

/-- C8: for any zone and table, an apex AXFR question without a valid TSIG
replies rcode NotAuth with no answer records and the table unchanged; with a
valid TSIG the answer section is exactly the AXFR envelope — synthesized
SOA, synthesized NS, synthesized A, every stored record, SOA again — again
with the table unchanged. -/
theorem axfr_gate_envelope :
    ∀ (fuel : Nat) (z : Zone) (T : Table) (b : Bool), z.allowCIDR = "" →
      handleRequest fuel z T ⟨OpcodeQuery, [⟨z.zoneName, TypeAXFR, ClassINET⟩], []⟩ true b
        = some (RcodeNotAuth, [], [], T)
      ∧ handleRequest fuel z T ⟨OpcodeQuery, [⟨z.zoneName, TypeAXFR, ClassINET⟩], []⟩ false b
        = some (RcodeSuccess, axfrRecord z T, [], T) := by
  intro fuel z T b hcidr
  have hq : (lowerStr z.zoneName == lowerStr z.zoneName) = true := beq_self_eq_true _
  constructor
  · simp [handleRequest, OpcodeQuery, handleQuestions, hq, TypeAXFR, TypeNS, TypeSOA,
      RcodeNotAuth]
  · simp [handleRequest, OpcodeQuery, handleQuestions, hq, TypeAXFR, TypeNS, TypeSOA,
      RcodeSuccess]

/-- C8 witness: the gate and the envelope on the concrete two-record zone. -/
theorem axfr_gate_envelope_witness :
    handleRequest 1 exZone exChaseTable
        ⟨OpcodeQuery, [⟨exZone.zoneName, TypeAXFR, ClassINET⟩], []⟩ true true
      = some (RcodeNotAuth, [], [], exChaseTable)
    ∧ handleRequest 1 exZone exChaseTable
        ⟨OpcodeQuery, [⟨exZone.zoneName, TypeAXFR, ClassINET⟩], []⟩ false true
      = some (RcodeSuccess, axfrRecord exZone exChaseTable, [], exChaseTable) :=
  axfr_gate_envelope 1 exZone exChaseTable true rfl

end DDNS
